import Mathlib

/-!
Verification of the bugstats repository (mozilla/bugstats) against its
natural-language specification.  The Python sources `bugstats/cfw.py`,
`bugstats/regrs.py` and `bugstats/config.py` are shallowly embedded below:
pure string manipulation is modelled over `List Char`, bug records become
structures, the external services (bug tracker, mercurial, calendar feed,
date parsing) are request/response oracles passed in as data or functions,
and timestamps are modelled as integers counting seconds, with whole days
being multiples of `oneDay`.
-/

namespace Bugstats

/-- One day, in seconds; `relativedelta(days=1)` on UTC datetimes. -/
def oneDay : Int := 86400

/-- Python substring test `sub in s`, over character lists. -/
def containsSub (sub l : List Char) : Bool :=
  l.tails.any (fun t => sub.isPrefixOf t)

/-- Python `str.endswith(suffixes)` with a tuple of alternatives. -/
def endsWithAny (suffixes : List (List Char)) (l : List Char) : Bool :=
  suffixes.any (fun suf => suf.isSuffixOf l)

/-- The helper `_is_test` nested in `patch_analysis` (cfw.py, lines 180-182):
a path is a test path when it contains the substring `test` and does not end
with one of the fixed non-test suffixes. -/
def is_test (path : String) : Bool :=
  containsSub "test".data path.data &&
    !(endsWithAny (["ini", "list", "in", "py", "json", "manifest"].map String.data) path.data)

/-- ASCII lowercasing of one character, as done by case-insensitive regexes
on the ASCII inputs that occur here. -/
def lowerAscii (c : Char) : Char :=
  if c.toNat ≥ 65 ∧ c.toNat ≤ 90 then Char.ofNat (c.toNat + 32) else c

/-!  Name cleaning (`get_better_name`, cfw.py lines 273-290).  The regex
substitutions `PAR_PAT`, `BRA_PAT`, `DIA_PAT`, `COL_PAT`, `UTC_PAT` are
embedded as character-list scans with the same leftmost-match semantics. -/

/-- Substitution of the delimited patterns `\([^\)]*\)`, `\[[^\]]*\]`,
`<[^>]*>` by the empty string: a segment from an opening delimiter to the
next closing delimiter is dropped; an opening delimiter that is never
closed is kept literally (the regex does not match there).  The auxiliary
buffers the characters seen since the pending opening delimiter, so that
they can be emitted unchanged when no closing delimiter follows. -/
def removeDelimAux (opn close : Char) : List Char → Option (List Char) → List Char
  | [], none => []
  | [], some buf => buf.reverse
  | c :: rest, none =>
      if c = opn then removeDelimAux opn close rest (some [c])
      else c :: removeDelimAux opn close rest none
  | c :: rest, some buf =>
      if c = close then removeDelimAux opn close rest none
      else removeDelimAux opn close rest (some (c :: buf))

/-- `re.sub` of a delimited pattern by the empty string. -/
def removeDelim (opn close : Char) (l : List Char) : List Char :=
  removeDelimAux opn close l none

/-- `COL_PAT.sub(repl, s)` where `COL_PAT = :[^:]*` and `repl` keeps a match
only when it starts at position 0: every character from the first colon on
is removed, except that a colon at position 0 keeps itself and the run up to
the next colon. -/
def colSub (l : List Char) : List Char :=
  if l.contains ':' then
    let pre := l.takeWhile (fun c => c ≠ ':')
    if pre = [] then ':' :: (l.tail.takeWhile (fun c => c ≠ ':')) else pre
  else l

/-- Substitution of `UTC_PAT = UTC\+[^ \t]*` by the empty string: an occurrence of
`UTC+` and the following run of non-blank characters is removed.  The
Boolean state records that the scan is inside such a run. -/
def utcAux : Bool → List Char → List Char
  | _, [] => []
  | true, c :: rest =>
      if c = ' ' ∨ c = '\t' then c :: utcAux false rest else utcAux true rest
  | false, 'U' :: 'T' :: 'C' :: '+' :: rest => utcAux true rest
  | false, c :: rest => c :: utcAux false rest

/-- Substitution of the UTC-offset pattern by the empty string. -/
def utcSub (l : List Char) : List Char := utcAux false l

/-- Python `str.strip()` whitespace. -/
def isPySpace (c : Char) : Bool :=
  c = ' ' ∨ c = '\t' ∨ c = '\n' ∨ c = '\r' ∨ c = '\x0b' ∨ c = '\x0c'

/-- Python `str.strip()`. -/
def pyStrip (l : List Char) : List Char :=
  ((l.dropWhile isPySpace).reverse.dropWhile isPySpace).reverse

/-- `get_better_name` (cfw.py lines 273-290): clean an assignee display
name.  Names starting with `Nobody;` are special-cased; otherwise the five
regex substitutions run in source order, the result is stripped and one
leading colon is dropped. -/
def get_better_name (name : String) : String :=
  if "Nobody;".data.isPrefixOf name.data then "Nobody"
  else
    let s := removeDelim '(' ')' name.data
    let s := removeDelim '[' ']' s
    let s := removeDelim '<' '>' s
    let s := colSub s
    let s := utcSub s
    let s := pyStrip s
    let s := match s with
             | ':' :: t => t
             | other => other
    String.mk s

/-!  Patch analysis (`patch_analysis`, cfw.py lines 177-205).  The external
library `whatthepatch.parse_patch` is the boundary: a parsed diff is a list
of per-file entries, each with an optional header (old and new path) and a
list of change triples `(old, new, text)` carrying the optional old and new
line numbers. -/

/-- Header of one parsed per-file diff. -/
structure DiffHeader where
  old_path : String
  new_path : String
deriving DecidableEq

/-- One change triple produced by the external diff parser: optional old
line number, optional new line number, line text. -/
structure Change where
  old : Option Nat
  new : Option Nat
  text : String
deriving DecidableEq

/-- One per-file entry of a parsed diff. -/
structure Diff where
  header : Option DiffHeader
  changes : List Change
deriving DecidableEq

/-- The `PATCH_INFO` accumulator (cfw.py lines 40-43). -/
structure PatchInfo where
  changes_size : Nat
  test_changes_size : Nat
  changes_add : Nat
  changes_del : Nat
deriving DecidableEq

/-- `PATCH_INFO` initial value. -/
def PATCH_INFO : PatchInfo :=
  { changes_size := 0, test_changes_size := 0, changes_add := 0, changes_del := 0 }

/-- Body of the `for diff in whatthepatch.parse_patch(patch)` loop of
`patch_analysis`: entries without header or without changes are skipped,
additions and deletions are counted from the change triples, and the length
of the change list goes to the test or non-test size counter according to
`_is_test` on the stripped new path. -/
def patch_analysis_step (info : PatchInfo) (diff : Diff) : PatchInfo :=
  match diff.header with
  | none => info
  | some h =>
      if diff.changes = [] then info
      else
        let new_path := if "b/".data.isPrefixOf h.new_path.data
                        then String.mk (h.new_path.data.drop 2) else h.new_path
        let adds := (diff.changes.filter (fun c => c.old = none ∧ c.new ≠ none)).length
        let dels := (diff.changes.filter (fun c => c.new = none ∧ c.old ≠ none)).length
        let info := { info with changes_add := info.changes_add + adds,
                                changes_del := info.changes_del + dels }
        if is_test new_path then
          { info with test_changes_size := info.test_changes_size + diff.changes.length }
        else
          { info with changes_size := info.changes_size + diff.changes.length }

/-- `patch_analysis` (cfw.py lines 177-205) over an already-parsed diff. -/
def patch_analysis (diffs : List Diff) : PatchInfo :=
  diffs.foldl patch_analysis_step PATCH_INFO

/-- Specification-side count: the added-only change pairs of one parsed
per-file diff (a new side and no old side). -/
def addedOnly (d : Diff) : Nat :=
  (d.changes.filter (fun c => c.old = none ∧ c.new ≠ none)).length

/-- Specification-side count: the removed-only change pairs of one parsed
per-file diff (an old side and no new side). -/
def removedOnly (d : Diff) : Nat :=
  (d.changes.filter (fun c => c.new = none ∧ c.old ≠ none)).length

/-!  Revision resolution (`get_hg` and its nested `handler_rev`, cfw.py
lines 236-264), together with `comment_handler` (lines 145-152) which
creates the landing entries. -/

/-- One landing entry, as created by `comment_handler`: push date (later
filled in), backout flag, owning bug id kept as the decimal string used for
the cross-reference check. -/
structure Landing where
  date : Option Int
  backedout : Bool
  bugid : String
deriving DecidableEq

/-- The fields of the push record returned by the mercurial API for one
revision: push timestamp, `backedoutby` marker and commit message. -/
structure RevJson where
  pushdate : Int
  backedoutby : String
  desc : String
deriving DecidableEq

/-- The backout regex `^back(ed)? ?out` with `re.I`, searched in a commit
message: because of the anchor it only matches at the start. -/
def startsBackout (desc : String) : Bool :=
  let l := desc.data.map lowerAscii
  (["backout", "back out", "backedout", "backed out"].map String.data).any
    (fun p => p.isPrefixOf l)

/-- Attempt of the bug-reference pattern `[\t ]*[Bb][Uu][Gg][\t ]*([0-9]+)`
at one position: the word `bug` case-insensitively, optional blanks, then a
nonempty digit run, whose digits are the captured group. -/
def tryBugAt (l : List Char) : Option (List Char) :=
  match l with
  | b :: u :: g :: rest =>
      if lowerAscii b = 'b' ∧ lowerAscii u = 'u' ∧ lowerAscii g = 'g' then
        let rest2 := rest.dropWhile (fun c => c = ' ' ∨ c = '\t')
        let digits := rest2.takeWhile Char.isDigit
        if digits = [] then none else some digits
      else none
  | _ => none

/-- `bug_pattern.search(desc)` followed by `m.group(1)`: the digits of the
leftmost occurrence of the bug-reference pattern, if any. -/
def firstBugNum : List Char → Option (List Char)
  | [] => none
  | c :: rest =>
      match tryBugAt (c :: rest) with
      | some digits => some digits
      | none => firstBugNum rest

/-- `handler_rev` (cfw.py lines 242-254): fill the landing entry with the
push date and the backout status computed from the push record, then clear
the bug id when the commit message does not reference the same bug. -/
def handler_rev (json : RevJson) (data : Landing) : Landing :=
  let backedout := !(json.backedoutby == "") || startsBackout json.desc
  let data := { data with date := some json.pushdate, backedout := backedout }
  match firstBugNum json.desc.data with
  | none => { data with bugid := "" }
  | some num =>
      if String.mk num ≠ data.bugid then { data with bugid := "" } else data

/-- One bug record as `get_hg` sees it: the landing entries keyed by
revision, and the `landed_patches` count it fills in. -/
structure HgBug where
  land : List (String × Landing)
  landed_patches : Nat
deriving DecidableEq

/-- `get_hg` (cfw.py lines 236-264): the mercurial lookups are the oracle
`push` from revision id to push record; every landing entry is updated by
`handler_rev`, then `landed_patches` is set to the number of landing
entries whose `backedout` flag is `False`. -/
def get_hg (push : String → RevJson) (bugs : List (Nat × HgBug)) : List (Nat × HgBug) :=
  let bugs := bugs.map (fun p =>
    (p.1, { p.2 with
            land := p.2.land.map (fun q : String × Landing =>
              (q.1, handler_rev (push q.1) q.2)) }))
  bugs.map (fun p =>
    (p.1, { p.2 with
            landed_patches :=
              (p.2.land.map (fun q : String × Landing => q.2.backedout)).count false }))

/-!  Change-history handling for the freeze pipeline (`history_handler`,
cfw.py lines 155-174) and for the regression pipeline (`history_handler`
and `filter_bugs`, regrs.py lines 71-94). -/

/-- One field change inside a history entry. -/
structure HChange where
  field_name : String
  removed : String
  added : String
deriving DecidableEq

/-- One history entry: author, timestamp and its list of field changes. -/
structure HEntry where
  who : String
  at_ : Int
  changes : List HChange
deriving DecidableEq

/-- Scan for `SOFTVISION_PAT = [^@]+@softvision`: some non-at character
directly followed by the text `@softvision`. -/
def svAux : List Char → Bool
  | [] => false
  | c :: rest => (!(c == '@') && "@softvision".data.isPrefixOf rest) || svAux rest

/-- `SOFTVISION_PAT.search(who)` as a Boolean. -/
def svMatch (who : String) : Bool := svAux who.data

/-- Body of the inner loop of the freeze `history_handler`: the state is
the pair (softvision, valid).  A RESOLVED to VERIFIED change by a matching
author sets softvision; a change of the tracked flag to `fixed` OVERWRITES
valid with the day-window test of the timestamp of its entry. -/
def history_step (flag : String) (date : Int) (g : HEntry) (st : Bool × Bool)
    (ch : HChange) : Bool × Bool :=
  let sv := if ch.removed = "RESOLVED" ∧ ch.added = "VERIFIED" ∧ svMatch g.who
            then true else st.1
  let valid := if ch.field_name = flag ∧ ch.added = "fixed"
               then decide (date ≤ g.at_ ∧ g.at_ < date + oneDay) else st.2
  (sv, valid)

/-- The freeze `history_handler` (cfw.py lines 155-174) reduced to the pair
(softvision, valid) it computes for one bug; the bug is appended to the
invalids list exactly when the second component is false. -/
def history_handler_cfw (flag : String) (date : Int) (history : List HEntry) :
    Bool × Bool :=
  history.foldl (fun st g => g.changes.foldl (history_step flag date g) st) (false, false)

/-- A bug record reduced to what the freeze validity check reads. -/
structure FreezeBug where
  history : List HEntry
deriving DecidableEq

/-- The effect of `history_handler` filling `invalids` followed by
`for invalid in invalids: del data[invalid]` in `get_bugs` (cfw.py lines
367-380): on the keyed collection this keeps exactly the bugs whose valid
bit is true. -/
def freeze_valid_filter (flag : String) (date : Int)
    (data : List (Nat × FreezeBug)) : List (Nat × FreezeBug) :=
  data.filter (fun p => (history_handler_cfw flag date p.2.history).2)

/-- All changes of a history that set `flag` to `fixed`, each tagged with
the timestamp of its entry, in event-stream order. -/
def matchingChanges (flag : String) (history : List HEntry) : List (Int × HChange) :=
  history.flatMap (fun g =>
    (g.changes.filter (fun ch => ch.field_name == flag && ch.added == "fixed")).map
      (fun ch => (g.at_, ch)))

/-- One history entry of the regression pipeline (no author needed). -/
structure RGroup where
  at_ : Int
  changes : List HChange
deriving DecidableEq

/-- The regression `history_handler` (regrs.py lines 71-86): entries not on
the filter date are skipped, and a change of the tracked flag from
verified or fixed to the unset or affected value sets the regression bit. -/
def history_handler_regrs (date : Option Int) (flag : String)
    (history : List RGroup) : Bool :=
  history.foldl (fun reg g =>
    if date.elim false (fun d => decide (g.at_ ≠ d)) then reg
    else g.changes.foldl (fun r ch =>
      if ch.field_name ≠ flag then r
      else if (ch.removed = "verified" ∨ ch.removed = "fixed") ∧
              (ch.added = "---" ∨ ch.added = "affected") then true
      else r) reg) false

/-- A bug record reduced to what the regression reconciliation reads:
current status, current value of the tracked status flag, history. -/
structure RegBug where
  status : String
  flagval : String
  history : List RGroup
deriving DecidableEq

/-- The final regression bit of one bug: the history bit computed by the
regression `history_handler`, promoted to true by `filter_bugs` (regrs.py
lines 88-94) when it is false but the bug is REOPENED with the tracked flag
still verified/fixed. -/
def regression_flag (date : Option Int) (flag : String) (bug : RegBug) : Bool :=
  let reg := history_handler_regrs date flag bug.history
  if reg then reg
  else if bug.status = "REOPENED" ∧ (bug.flagval = "verified" ∨ bug.flagval = "fixed")
  then true
  else reg

/-- The regression transition test on one field change: the tracked flag
moved from verified or fixed to the unset or affected value. -/
def regTransition (flag : String) (ch : HChange) : Bool :=
  ch.field_name == flag &&
    decide ((ch.removed = "verified" ∨ ch.removed = "fixed") ∧
      (ch.added = "---" ∨ ch.added = "affected"))

/-- Inclusion of one history entry under the optional date filter of the
regression pipeline. -/
def onDate (date : Option Int) (g : RGroup) : Bool :=
  !(date.elim false (fun d => decide (g.at_ ≠ d)))

/-- Specification-side predicate: the history contains, on the optionally
date-filtered event stream, a change of the tracked status flag with
removed value verified or fixed and added value unset or affected. -/
def DirectTransition (date : Option Int) (flag : String) (history : List RGroup) : Prop :=
  ∃ g ∈ history, (date = none ∨ date = some g.at_) ∧
    ∃ ch ∈ g.changes, ch.field_name = flag ∧
      (ch.removed = "verified" ∨ ch.removed = "fixed") ∧
      (ch.added = "---" ∨ ch.added = "affected")

/-!  Report shaping (`prepare`, cfw.py lines 293-326) and its sort order. -/

/-- The fields of a bug record read by `prepare`. -/
structure CfwInfo where
  product : String
  component : String
  summary : String
  assigned_to : String
  priority : String
  severity : String
  tracking : String
  status_m2 : String
  status_m1 : String
  status_m : String
  keywords : List String
  softvision : Bool
  isacrash : Bool
  quantum : Bool
  landed_patches : Nat
  patches : PatchInfo
deriving DecidableEq

/-- One row of the final report. -/
structure ReportRow where
  bugid : Nat
  summary : String
  product : String
  component : String
  assignee : String
  patches : Nat
  addlines : Nat
  rmlines : Nat
  size : Nat
  test_size : Nat
  priority : String
  severity : String
  tracking : String
  status_m2 : String
  status_m1 : String
  status_m : String
  qaverified : String
  crash : String
  quantum : String
  keywords : String
deriving DecidableEq

/-- `display_list` (cfw.py lines 267-270) on the keyword list. -/
def display_list (l : List String) : String := String.intercalate "," l

/-- The lexicographic type of the sort key used by `prepare`. -/
abbrev SortKey := Lex (String × Lex (String × Lex (Int × Lex (Int × Lex (Int × Int)))))

/-- The key function `sort` nested in `prepare` (cfw.py lines 294-298):
product, component, then negated landed-patch count, change size, test
change size and bug id, compared lexicographically like a Python tuple. -/
def sortKey (p : Nat × CfwInfo) : SortKey :=
  toLex (p.2.product, toLex (p.2.component, toLex (-(p.2.landed_patches : Int),
    toLex (-(p.2.patches.changes_size : Int),
      toLex (-(p.2.patches.test_changes_size : Int), -(p.1 : Int))))))

/-- The same key read back from a finished report row. -/
def rowKey (r : ReportRow) : SortKey :=
  toLex (r.product, toLex (r.component, toLex (-(r.patches : Int),
    toLex (-(r.size : Int), toLex (-(r.test_size : Int), -(r.bugid : Int))))))

/-- The row built by the loop body of `prepare` for one bug. -/
def rowOf (p : Nat × CfwInfo) : ReportRow :=
  { bugid := p.1
    summary := p.2.summary
    product := p.2.product
    component := p.2.component
    assignee := get_better_name p.2.assigned_to
    patches := p.2.landed_patches
    addlines := p.2.patches.changes_add
    rmlines := p.2.patches.changes_del
    size := p.2.patches.changes_size
    test_size := p.2.patches.test_changes_size
    priority := p.2.priority
    severity := p.2.severity
    tracking := p.2.tracking
    status_m2 := p.2.status_m2
    status_m1 := p.2.status_m1
    status_m := p.2.status_m
    qaverified := if p.2.softvision then "Yes" else "No"
    crash := if p.2.isacrash then "Yes" else "No"
    quantum := if p.2.quantum then "Yes" else "No"
    keywords := display_list p.2.keywords }

/-- `prepare` (cfw.py lines 293-326): sort the surviving records by the key
and flatten each into a report row. -/
def prepare (bugs : List (Nat × CfwInfo)) : List ReportRow :=
  (bugs.mergeSort (fun a b => decide (sortKey a ≤ sortKey b))).map rowOf

/-!  Window resolution (`get_start_date`, cfw.py lines 76-88, and the date
logic of `get_bugs`, lines 346-385).  Calendar events and dates are data;
the ISO-calendar map is an oracle `iso` from a date to its (ISO year, ISO
week) pair.  The body of the in-window branch of `get_bugs` (the whole
fetch, enrichment and shaping) is abstracted as the row list `fetch`. -/

/-- One event of the public release calendar. -/
structure CalEvent where
  summary : String
  dtstart : Int
deriving DecidableEq

/-- `get_start_date` (cfw.py lines 76-88): first start date, among events
whose title contains the marker `Beta->Release`, that falls in the same ISO
year and week as the target date; `None` when there is no match. -/
def get_start_date (iso : Int → Int × Int) (events : List CalEvent) (date : Int) :
    Option Int :=
  ((events.filter (fun ev => containsSub "Beta->Release".data ev.summary.data)).map
      CalEvent.dtstart).find?
    (fun d => (iso d).1 == (iso date).1 && (iso d).2 == (iso date).2)

/-- The window logic of `get_bugs` (cfw.py lines 346-385).  Without an
explicit range the start date comes from the calendar and the end date is
start plus six days; the target date must lie in the inclusive window, else
the empty list is returned.  When `get_start_date` yields `None`, the
source passes `None` to the external parser `utils.get_date_ymd`, which
rejects a missing argument (it asserts its input is not `None`), so that
path is an error, not a result. -/
def get_bugs_window (iso : Int → Int × Int) (events : List CalEvent)
    (fetch : List ReportRow) (date : Int) (date_range : Option (Int × Int)) :
    Except String (List ReportRow) :=
  match date_range with
  | none =>
      match get_start_date iso events date with
      | none => Except.error "get_date_ymd: date must not be None"
      | some start_date =>
          let end_date := start_date + 6 * oneDay
          if start_date ≤ date ∧ date ≤ end_date then Except.ok fetch
          else Except.ok []
  | some r =>
      if r.1 ≤ date ∧ date ≤ r.2 then Except.ok fetch else Except.ok []

/-!  Deduplication of already-treated bugs (`check_bugs`, regrs.py lines
97-112).  The treated file is modelled as `Option (List Nat)` (its treated
list, or `none` when the file does not exist); the function returns the
resulting bug collection, the file contents afterwards, and whether any
file access happened. -/

/-- `check_bugs` (regrs.py lines 97-112). -/
def check_bugs (bugids : List Nat) (treated : String) (file : Option (List Nat)) :
    List Nat × Option (List Nat) × Bool :=
  if treated ≠ "" then
    match file with
    | some data =>
        let newbugs := bugids.dedup.filter (fun b => !(data.contains b))
        if newbugs ≠ [] then (newbugs, some (data ++ newbugs), true)
        else (newbugs, some data, true)
    | none => (bugids, some bugids, true)
  else (bugids, file, false)

end Bugstats

namespace Bugstats

/-! Helper lemmas shared by the claim theorems. -/

theorem containsSub_iff (sub l : List Char) : containsSub sub l = true ↔ sub <:+: l := by
  simp only [containsSub, List.any_eq_true, List.mem_tails, List.isPrefixOf_iff_prefix,
    List.infix_iff_prefix_suffix]
  exact ⟨fun ⟨t, ht, hp⟩ => ⟨t, hp, ht⟩, fun ⟨t, hp, ht⟩ => ⟨t, ht, hp⟩⟩

theorem endsWithAny_iff (sufs : List (List Char)) (l : List Char) :
    endsWithAny sufs l = true ↔ ∃ suf ∈ sufs, suf <:+ l := by
  simp [endsWithAny, List.any_eq_true, List.isSuffixOf_iff_suffix]

/-- C3: a diff file path is classified as a test path exactly when it
contains the substring `test` and does not end with one of the fixed
non-test suffixes `ini`, `list`, `in`, `py`, `json`, `manifest`; in
particular a path containing `test` but ending in `.json` is non-test and a
`.cpp` path inside a `test` directory is a test path. -/
theorem claim_C3 :
    (∀ path : String, is_test path = true ↔
        ("test".data <:+: path.data ∧
          ¬ ∃ suf ∈ ["ini", "list", "in", "py", "json", "manifest"].map String.data,
              suf <:+ path.data)) ∧
    is_test "dom/test/unit/foo.json" = false ∧
    is_test "dom/test/unit/foo.cpp" = true := by
  refine ⟨fun path => ?_, by decide, by decide⟩
  simp [is_test, containsSub_iff, Bool.eq_false_iff, Ne, endsWithAny_iff]

/-- C6: `get_better_name` strips the annotation segments from assignee
names: a bracketed nickname is removed, a parenthesized UTC offset is
removed, and a name starting with `Nobody;` is special-cased to `Nobody`. -/
theorem claim_C6 :
    get_better_name "Jane Doe [:jdoe]" = "Jane Doe" ∧
    get_better_name "J. Doe (UTC+2)" = "J. Doe" ∧
    get_better_name "Nobody; needinfo" = "Nobody" := by
  refine ⟨by decide, by decide, by decide⟩

/-- C9: `handler_rev` always fills the date and backout fields of a landing
entry from the push record alone; the bug id field is kept when the commit
message references the same bug id and is cleared to the empty string when
the pattern is absent or the referenced id differs. -/
theorem claim_C9 (json : RevJson) (e : Landing) :
    (handler_rev json e).date = some json.pushdate ∧
    (handler_rev json e).backedout = (!(json.backedoutby == "") || startsBackout json.desc) ∧
    (firstBugNum json.desc.data = some e.bugid.data → (handler_rev json e).bugid = e.bugid) ∧
    (firstBugNum json.desc.data ≠ some e.bugid.data → (handler_rev json e).bugid = "") := by
  have hiff : String.mk (firstBugNum json.desc.data).iget = e.bugid ↔
      (firstBugNum json.desc.data).iget = e.bugid.data :=
    ⟨fun h => congrArg String.data h, fun h => by rw [h]⟩
  unfold handler_rev
  cases hm : firstBugNum json.desc.data with
  | none => simp
  | some num =>
      rw [hm] at hiff
      by_cases hbd : num = e.bugid.data
      · have hb : String.mk num = e.bugid := hiff.mpr hbd
        simp [hb, hbd]
      · have hb : String.mk num ≠ e.bugid := fun h => hbd (hiff.mp h)
        simp [hb, hbd]

/-- C9 witness: on a commit message referencing bug 42, an entry owned by
bug 43 loses its bug id but receives the push date, while an entry owned by
bug 42 keeps its bug id. -/
theorem claim_C9_witness :
    (handler_rev ⟨5, "", "Bug 42 - fix stuff"⟩ ⟨none, false, "43"⟩).bugid = "" ∧
    (handler_rev ⟨5, "", "Bug 42 - fix stuff"⟩ ⟨none, false, "43"⟩).date = some 5 ∧
    (handler_rev ⟨5, "", "Bug 42 - fix stuff"⟩ ⟨none, false, "42"⟩).bugid = "42" := by
  refine ⟨(claim_C9 ⟨5, "", "Bug 42 - fix stuff"⟩ ⟨none, false, "43"⟩).2.2.2 (by decide),
    (claim_C9 ⟨5, "", "Bug 42 - fix stuff"⟩ ⟨none, false, "43"⟩).1,
    (claim_C9 ⟨5, "", "Bug 42 - fix stuff"⟩ ⟨none, false, "42"⟩).2.2.1 (by decide)⟩

/-- C1: after `get_hg` completes, every record carries in `landed_patches`
the number of its landing entries whose backout flag is false. -/
theorem claim_C1 (push : String → RevJson) (bugs : List (Nat × HgBug))
    (p : Nat × HgBug) (hp : p ∈ get_hg push bugs) :
    p.2.landed_patches =
      (p.2.land.filter (fun q => q.2.backedout == false)).length := by
  unfold get_hg at hp
  obtain ⟨q, hq, rfl⟩ := List.mem_map.mp hp
  dsimp only
  rw [List.count_eq_countP, List.countP_map, List.countP_eq_length_filter]
  rfl

/-- C1 witness: a concrete run of `get_hg` on one bug with one landing
entry whose push record is clean yields one landed patch, matching the
count of non-backed-out entries. -/
theorem claim_C1_witness :
    ((7, ⟨[("abc", ⟨some 0, false, "7"⟩)], 1⟩) : Nat × HgBug) ∈
      get_hg (fun _ => ⟨0, "", "Bug 7 - x"⟩)
        [(7, ⟨[("abc", ⟨none, false, "7"⟩)], 0⟩)] ∧
    ((7, ⟨[("abc", ⟨some 0, false, "7"⟩)], 1⟩) : Nat × HgBug).2.landed_patches =
      (((7, ⟨[("abc", ⟨some 0, false, "7"⟩)], 1⟩) : Nat × HgBug).2.land.filter
          (fun q => q.2.backedout == false)).length := by
  refine ⟨by decide, claim_C1 (fun _ => ⟨0, "", "Bug 7 - x"⟩)
    [(7, ⟨[("abc", ⟨none, false, "7"⟩)], 0⟩)] _ (by decide)⟩

theorem patch_analysis_step_sums (info : PatchInfo) (d : Diff) (hd : d.header ≠ none) :
    (patch_analysis_step info d).changes_add + (patch_analysis_step info d).changes_del =
      info.changes_add + info.changes_del + (addedOnly d + removedOnly d) ∧
    (patch_analysis_step info d).changes_size + (patch_analysis_step info d).test_changes_size =
      info.changes_size + info.test_changes_size + d.changes.length := by
  unfold patch_analysis_step addedOnly removedOnly
  split
  · next heq => exact absurd heq hd
  · next hdr heq =>
      by_cases hc : d.changes = []
      · simp [hc]
      · rw [if_neg hc]
        dsimp only
        split <;> split <;> constructor <;> (try dsimp only) <;> omega

theorem patch_analysis_foldl (diffs : List Diff) (info : PatchInfo)
    (h : ∀ d ∈ diffs, d.header ≠ none) :
    ((diffs.foldl patch_analysis_step info).changes_add +
        (diffs.foldl patch_analysis_step info).changes_del =
      info.changes_add + info.changes_del +
        (diffs.map (fun d => addedOnly d + removedOnly d)).sum) ∧
    ((diffs.foldl patch_analysis_step info).changes_size +
        (diffs.foldl patch_analysis_step info).test_changes_size =
      info.changes_size + info.test_changes_size +
        (diffs.map (fun d => d.changes.length)).sum) := by
  induction diffs generalizing info with
  | nil => simp
  | cons d rest ih =>
      have hd : d.header ≠ none := h d (List.mem_cons_self d rest)
      have hrest : ∀ x ∈ rest, x.header ≠ none := fun x hx => h x (List.mem_cons_of_mem d hx)
      have hstep := patch_analysis_step_sums info d hd
      have hih := ih (patch_analysis_step info d) hrest
      constructor
      · rw [List.foldl_cons, hih.1, hstep.1, List.map_cons, List.sum_cons]
        omega
      · rw [List.foldl_cons, hih.2, hstep.2, List.map_cons, List.sum_cons]
        omega

/-- C2: over a parsed unified diff (every per-file entry has a header), the
counters of `patch_analysis` satisfy: additions plus deletions equal the
total number of added-only plus removed-only change pairs across the diff,
and the non-test size plus the test size equals the total number of change
pairs across the diff. -/
theorem claim_C2 (diffs : List Diff) (h : ∀ d ∈ diffs, d.header ≠ none) :
    (patch_analysis diffs).changes_add + (patch_analysis diffs).changes_del =
      (diffs.map (fun d => addedOnly d + removedOnly d)).sum ∧
    (patch_analysis diffs).changes_size + (patch_analysis diffs).test_changes_size =
      (diffs.map (fun d => d.changes.length)).sum := by
  have main := patch_analysis_foldl diffs PATCH_INFO h
  simpa [patch_analysis, PATCH_INFO] using main

/-- C2 witness: one diff of a non-test file with one pure addition, one
pure deletion and one context line gives one addition, one deletion and a
change size of three. -/
theorem claim_C2_witness :
    (∀ d ∈ [(⟨some ⟨"a/x.c", "b/x.c"⟩, [⟨none, some 1, "p"⟩, ⟨some 1, none, "q"⟩,
        ⟨some 2, some 2, "r"⟩]⟩ : Diff)], d.header ≠ none) ∧
    (patch_analysis [⟨some ⟨"a/x.c", "b/x.c"⟩, [⟨none, some 1, "p"⟩, ⟨some 1, none, "q"⟩,
        ⟨some 2, some 2, "r"⟩]⟩]).changes_add +
      (patch_analysis [⟨some ⟨"a/x.c", "b/x.c"⟩, [⟨none, some 1, "p"⟩, ⟨some 1, none, "q"⟩,
        ⟨some 2, some 2, "r"⟩]⟩]).changes_del =
      ([(⟨some ⟨"a/x.c", "b/x.c"⟩, [⟨none, some 1, "p"⟩, ⟨some 1, none, "q"⟩,
        ⟨some 2, some 2, "r"⟩]⟩ : Diff)].map (fun d => addedOnly d + removedOnly d)).sum := by
  refine ⟨by decide, (claim_C2 [⟨some ⟨"a/x.c", "b/x.c"⟩, [⟨none, some 1, "p"⟩,
    ⟨some 1, none, "q"⟩, ⟨some 2, some 2, "r"⟩]⟩] (by decide)).1⟩

theorem reg_inner_foldl (flag : String) (cs : List HChange) (r : Bool) :
    cs.foldl (fun r ch =>
        if ch.field_name ≠ flag then r
        else if (ch.removed = "verified" ∨ ch.removed = "fixed") ∧
                (ch.added = "---" ∨ ch.added = "affected") then true
        else r) r =
      (r || cs.any (regTransition flag)) := by
  induction cs generalizing r with
  | nil => simp
  | cons ch rest ih =>
      rw [List.foldl_cons, ih, List.any_cons]
      have hstep : (if ch.field_name ≠ flag then r
          else if (ch.removed = "verified" ∨ ch.removed = "fixed") ∧
                  (ch.added = "---" ∨ ch.added = "affected") then true
          else r) = (r || regTransition flag ch) := by
        by_cases h1 : ch.field_name = flag
        · by_cases h2 : (ch.removed = "verified" ∨ ch.removed = "fixed") ∧
              (ch.added = "---" ∨ ch.added = "affected")
          · simp [regTransition, h1, h2]
          · simp [regTransition, h1, h2]
        · simp [regTransition, h1]
      rw [hstep, Bool.or_assoc]

theorem reg_outer_foldl (date : Option Int) (flag : String) (history : List RGroup)
    (r : Bool) :
    history.foldl (fun reg g =>
        if date.elim false (fun d => decide (g.at_ ≠ d)) then reg
        else g.changes.foldl (fun r ch =>
          if ch.field_name ≠ flag then r
          else if (ch.removed = "verified" ∨ ch.removed = "fixed") ∧
                  (ch.added = "---" ∨ ch.added = "affected") then true
          else r) reg) r =
      (r || history.any (fun g => onDate date g && g.changes.any (regTransition flag))) := by
  induction history generalizing r with
  | nil => simp
  | cons g rest ih =>
      rw [List.foldl_cons, List.any_cons]
      by_cases hd : date.elim false (fun d => decide (g.at_ ≠ d)) = true
      · have hond : onDate date g = false := by simpa [onDate] using hd
        rw [if_pos hd, ih, hond]
        simp
      · have hdf : date.elim false (fun d => decide (g.at_ ≠ d)) = false := by
          simpa using hd
        have hond : onDate date g = true := by simpa [onDate] using hdf
        rw [if_neg (ne_true_of_eq_false hdf), reg_inner_foldl, ih, hond]
        simp [Bool.or_assoc]

theorem history_handler_regrs_eq_any (date : Option Int) (flag : String)
    (history : List RGroup) :
    history_handler_regrs date flag history =
      history.any (fun g => onDate date g && g.changes.any (regTransition flag)) := by
  unfold history_handler_regrs
  rw [reg_outer_foldl]
  exact Bool.false_or _

theorem onDate_iff (date : Option Int) (g : RGroup) :
    onDate date g = true ↔ (date = none ∨ date = some g.at_) := by
  cases date with
  | none => simp [onDate]
  | some d => simp [onDate, eq_comm]

theorem history_handler_regrs_iff (date : Option Int) (flag : String)
    (history : List RGroup) :
    history_handler_regrs date flag history = true ↔
      DirectTransition date flag history := by
  rw [history_handler_regrs_eq_any]
  simp only [List.any_eq_true, Bool.and_eq_true, DirectTransition, onDate_iff,
    regTransition, beq_iff_eq, decide_eq_true_eq]

/-- C5: a bug is flagged as a true regression exactly when its history has
a direct transition of the tracked flag from verified or fixed to unset or
affected on the optionally date-filtered event stream, or it has no such
transition but its status is REOPENED while the flag is verified or fixed;
the reconciliation pass only promotes false flags, so a bug satisfying both
conditions is counted once. -/
theorem claim_C5 (date : Option Int) (flag : String) (bug : RegBug) :
    regression_flag date flag bug = true ↔
      (DirectTransition date flag bug.history ∨
        (¬ DirectTransition date flag bug.history ∧ bug.status = "REOPENED" ∧
          (bug.flagval = "verified" ∨ bug.flagval = "fixed"))) := by
  have hh := history_handler_regrs_iff date flag bug.history
  unfold regression_flag
  by_cases hreg : history_handler_regrs date flag bug.history = true
  · simp only [hreg, if_true]
    exact ⟨fun _ => Or.inl (hh.mp hreg), fun _ => trivial⟩
  · have hregf : history_handler_regrs date flag bug.history = false := by
      simpa using hreg
    have hnd : ¬ DirectTransition date flag bug.history := fun hD => hreg (hh.mpr hD)
    rw [hregf]
    by_cases hcond : bug.status = "REOPENED" ∧
        (bug.flagval = "verified" ∨ bug.flagval = "fixed")
    · simp only [if_false, hcond, if_true, Bool.false_eq_true]
      tauto
    · simp only [if_false, hcond, Bool.false_eq_true]
      tauto

theorem cfw_inner_foldl (flag : String) (date : Int) (g : HEntry) (cs : List HChange)
    (st : Bool × Bool) :
    (cs.foldl (history_step flag date g) st).2 =
      if (cs.filter (fun ch => ch.field_name == flag && ch.added == "fixed")) = []
      then st.2 else decide (date ≤ g.at_ ∧ g.at_ < date + oneDay) := by
  induction cs generalizing st with
  | nil => simp
  | cons ch rest ih =>
      rw [List.foldl_cons, ih]
      by_cases hm : ch.field_name = flag ∧ ch.added = "fixed"
      · have hb : (ch.field_name == flag && ch.added == "fixed") = true := by
          simp [hm.1, hm.2]
        have hstep : (history_step flag date g st ch).2 =
            decide (date ≤ g.at_ ∧ g.at_ < date + oneDay) := by
          simp [history_step, hm]
        rw [hstep]
        simp [List.filter_cons, hb]
      · have hb : (ch.field_name == flag && ch.added == "fixed") = false := by
          simpa [Bool.and_eq_true] using hm
        have hstep : (history_step flag date g st ch).2 = st.2 := by
          simp [history_step, hm]
        rw [hstep]
        simp [List.filter_cons, hb]

theorem cfw_valid_foldl (flag : String) (date : Int) (history : List HEntry)
    (st : Bool × Bool) :
    (history.foldl (fun st g => g.changes.foldl (history_step flag date g) st) st).2 =
      (match (matchingChanges flag history).getLast? with
       | none => st.2
       | some wch => decide (date ≤ wch.1 ∧ wch.1 < date + oneDay)) := by
  induction history generalizing st with
  | nil => simp [matchingChanges]
  | cons g rest ih =>
      rw [List.foldl_cons, ih]
      have hm : matchingChanges flag (g :: rest) =
          (g.changes.filter (fun ch => ch.field_name == flag && ch.added == "fixed")).map
            (fun ch => (g.at_, ch)) ++ matchingChanges flag rest := by
        simp [matchingChanges]
      rw [hm, List.getLast?_append]
      cases hrest : (matchingChanges flag rest).getLast? with
      | some wch => simp [Option.or]
      | none =>
          rw [cfw_inner_foldl]
          by_cases hf : (g.changes.filter
              (fun ch => ch.field_name == flag && ch.added == "fixed")) = []
          · simp [hf]
          · obtain ⟨lch, hlch⟩ : ∃ lch, (g.changes.filter
                (fun ch => ch.field_name == flag && ch.added == "fixed")).getLast? =
                  some lch := by
              cases hq : (g.changes.filter
                  (fun ch => ch.field_name == flag && ch.added == "fixed")).getLast? with
              | none => exact absurd (List.getLast?_eq_none_iff.mp hq) hf
              | some lch => exact ⟨lch, rfl⟩
            simp [hf, List.getLast?_map, hlch, Option.or]

theorem history_handler_cfw_valid_iff (flag : String) (date : Int)
    (history : List HEntry) :
    (history_handler_cfw flag date history).2 = true ↔
      ∃ wch, (matchingChanges flag history).getLast? = some wch ∧
        date ≤ wch.1 ∧ wch.1 < date + oneDay := by
  unfold history_handler_cfw
  rw [cfw_valid_foldl]
  cases hl : (matchingChanges flag history).getLast? with
  | none => simp
  | some wch => simp

/-- C4 counterexample: a history that sets the tracked flag to fixed inside
the target day and then again two days later contains an in-window change,
yet the bug is invalidated and deleted, against the claim as stated. -/
theorem claim_C4_counterexample :
    (∃ g ∈ ([⟨"", 0, [⟨"cf_status_firefox57", "---", "fixed"⟩]⟩,
             ⟨"", 2 * oneDay, [⟨"cf_status_firefox57", "---", "fixed"⟩]⟩] : List HEntry),
       ∃ ch ∈ g.changes, ch.field_name = "cf_status_firefox57" ∧ ch.added = "fixed" ∧
         (0 : Int) ≤ g.at_ ∧ g.at_ < 0 + oneDay) ∧
    freeze_valid_filter "cf_status_firefox57" 0
      [(1, ⟨[⟨"", 0, [⟨"cf_status_firefox57", "---", "fixed"⟩]⟩,
             ⟨"", 2 * oneDay, [⟨"cf_status_firefox57", "---", "fixed"⟩]⟩]⟩)] = [] := by
  decide

/-- C4 amended: a bug is retained by the freeze validity check exactly when
its history has at least one change setting the tracked flag to fixed and
the LAST such change (in event-stream order) has a timestamp inside the
day window; every other bug is put on the invalids list and deleted. -/
theorem claim_C4_amended (flag : String) (date : Int) (data : List (Nat × FreezeBug))
    (p : Nat × FreezeBug) :
    p ∈ freeze_valid_filter flag date data ↔
      (p ∈ data ∧ ∃ wch, (matchingChanges flag p.2.history).getLast? = some wch ∧
        date ≤ wch.1 ∧ wch.1 < date + oneDay) := by
  unfold freeze_valid_filter
  rw [List.mem_filter, history_handler_cfw_valid_iff]

theorem rowKey_rowOf (p : Nat × CfwInfo) : rowKey (rowOf p) = sortKey p := rfl

/-- C7: the report rows produced by `prepare` are sorted by the key
(product ascending, component ascending, landed-patch count descending,
change size descending, test change size descending, bug id descending). -/
theorem claim_C7 (bugs : List (Nat × CfwInfo)) :
    List.Sorted (fun r1 r2 => rowKey r1 ≤ rowKey r2) (prepare bugs) := by
  unfold prepare
  have htrans : ∀ a b c : Nat × CfwInfo,
      decide (sortKey a ≤ sortKey b) = true → decide (sortKey b ≤ sortKey c) = true →
      decide (sortKey a ≤ sortKey c) = true := by
    intro a b c hab hbc
    simp only [decide_eq_true_eq] at hab hbc ⊢
    exact le_trans hab hbc
  have htotal : ∀ a b : Nat × CfwInfo,
      (decide (sortKey a ≤ sortKey b) || decide (sortKey b ≤ sortKey a)) = true := by
    intro a b
    simp only [Bool.or_eq_true, decide_eq_true_eq]
    exact le_total _ _
  have hp := List.sorted_mergeSort htrans htotal bugs
  exact List.Pairwise.map rowOf
    (fun a b h => by
      rw [rowKey_rowOf, rowKey_rowOf]
      exact of_decide_eq_true h) hp

/-- C8 counterexample: with no matching calendar event the freeze pipeline
does not produce an empty report; the unresolved start date reaches the
external date parser as `None` and the run fails. -/
theorem claim_C8_counterexample :
    get_bugs_window (fun d => (d, 0)) [] [] 0 none =
      Except.error "get_date_ymd: date must not be None" := by
  rfl

/-- C8 amended: a target date outside the resolved calendar window yields
an empty report without an error, but a target date with no matching
calendar event makes the pipeline fail (the `None` start date is rejected
by the external date parser), not return an empty report. -/
theorem claim_C8_amended (iso : Int → Int × Int) (events : List CalEvent)
    (fetch : List ReportRow) (date : Int) :
    (get_start_date iso events date = none →
        get_bugs_window iso events fetch date none =
          Except.error "get_date_ymd: date must not be None") ∧
    (∀ start_date, get_start_date iso events date = some start_date →
        ¬ (start_date ≤ date ∧ date ≤ start_date + 6 * oneDay) →
        get_bugs_window iso events fetch date none = Except.ok []) := by
  constructor
  · intro h
    unfold get_bugs_window
    rw [h]
  · intro s hs hw
    unfold get_bugs_window
    rw [hs]
    exact if_neg hw

/-- C8 witness: a concrete run with an empty calendar errors out, and a
concrete run whose target date is one day past the six-day window returns
the empty report. -/
theorem claim_C8_witness :
    get_bugs_window (fun _ => (0, 0)) [] [] 0 none =
      Except.error "get_date_ymd: date must not be None" ∧
    get_bugs_window (fun _ => (0, 0)) [⟨"Beta->Release week", 0⟩] [] (7 * oneDay) none =
      Except.ok [] := by
  refine ⟨(claim_C8_amended (fun _ => (0, 0)) [] [] 0).1 (by decide),
    (claim_C8_amended (fun _ => (0, 0)) [⟨"Beta->Release week", 0⟩] [] (7 * oneDay)).2 0
      (by decide) (by decide)⟩

/-- C10: with an empty treated path `check_bugs` returns its input
unchanged and touches no file; with an existing treated file it returns
exactly the input ids not already recorded, and the file afterwards holds
the union of its previous contents and the input ids. -/
theorem claim_C10 :
    (∀ (file : Option (List Nat)) (bugids : List Nat),
        check_bugs bugids "" file = (bugids, file, false)) ∧
    (∀ (treated : String) (old bugids : List Nat), treated ≠ "" →
        (∀ x, x ∈ (check_bugs bugids treated (some old)).1 ↔ (x ∈ bugids ∧ x ∉ old)) ∧
        ∃ newlist, (check_bugs bugids treated (some old)).2.1 = some newlist ∧
          ∀ x, x ∈ newlist ↔ (x ∈ old ∨ x ∈ bugids)) := by
  constructor
  · intro file bugids
    simp [check_bugs]
  · intro treated old bugids ht
    have heq : check_bugs bugids treated (some old) =
        (if bugids.dedup.filter (fun b => !(old.contains b)) ≠ [] then
          (bugids.dedup.filter (fun b => !(old.contains b)),
            some (old ++ bugids.dedup.filter (fun b => !(old.contains b))), true)
         else (bugids.dedup.filter (fun b => !(old.contains b)), some old, true)) := by
      unfold check_bugs
      rw [if_pos ht]
    rw [heq]
    by_cases hnb : bugids.dedup.filter (fun b => !(old.contains b)) = []
    · have hsub : ∀ x, x ∈ bugids → x ∈ old := by
        intro x hx
        by_contra hxo
        have hxf : x ∈ bugids.dedup.filter (fun b => !(old.contains b)) := by
          rw [List.mem_filter]
          refine ⟨List.mem_dedup.mpr hx, ?_⟩
          simp only [Bool.not_eq_true']
          exact (Bool.eq_false_iff).mpr (fun hc => hxo (List.elem_iff.mp hc))
        rw [hnb] at hxf
        exact absurd hxf (List.not_mem_nil x)
      rw [if_neg (not_not_intro hnb)]
      constructor
      · intro x
        show x ∈ bugids.dedup.filter (fun b => !(old.contains b)) ↔ _
        rw [hnb]
        simp only [List.not_mem_nil, false_iff]
        rintro ⟨hx, hxo⟩
        exact hxo (hsub x hx)
      · exact ⟨old, rfl, fun x => ⟨Or.inl, fun h => h.elim id (hsub x)⟩⟩
    · rw [if_pos hnb]
      constructor
      · intro x
        simp [List.mem_filter, List.mem_dedup, List.elem_iff]
      · refine ⟨old ++ bugids.dedup.filter (fun b => !(old.contains b)), rfl, fun x => ?_⟩
        simp only [List.mem_append, List.mem_filter, List.mem_dedup, Bool.not_eq_true',
          Bool.eq_false_iff]
        constructor
        · rintro (h | ⟨h, _⟩)
          · exact Or.inl h
          · exact Or.inr h
        · rintro (h | h)
          · exact Or.inl h
          · by_cases ho : x ∈ old
            · exact Or.inl ho
            · exact Or.inr ⟨h, fun hc => ho (List.elem_iff.mp hc)⟩

/-- C10 witness: a concrete call with an empty treated path returns the
input unchanged with no file access, and a concrete call against a treated
file holding 1 and 2 returns only the new id 3 and leaves the union on
file. -/
theorem claim_C10_witness :
    check_bugs [5, 6] "" (some [1]) = ([5, 6], some [1], false) ∧
    ((∀ x, x ∈ (check_bugs [2, 3] "t" (some [1, 2])).1 ↔ (x ∈ [2, 3] ∧ x ∉ [1, 2])) ∧
      ∃ newlist, (check_bugs [2, 3] "t" (some [1, 2])).2.1 = some newlist ∧
        ∀ x, x ∈ newlist ↔ (x ∈ [1, 2] ∨ x ∈ [2, 3])) :=
  ⟨claim_C10.1 (some [1]) [5, 6], claim_C10.2 "t" [1, 2] [2, 3] (by decide)⟩

end Bugstats
